import Mathlib

/-!
# Verification of the transcription/analysis backend

Shallow embedding of the backend's background-processing pipeline and its
generative-AI dispatch layer, together with proofs of the specified
properties.

* `VTA.Gemini` — `app/services/gemini_service.py`: round-robin credential
  rotation, bounded retry on rate-limit errors, and response parsing.
* `VTA.Pipeline` — `app/services/transcription_service.py` and
  `app/main.py`: the worker that drains the transcription queue, error
  marking, the status registry, and the startup recovery scanner.
* `VTA.QueueModel` — an operational (trace) model of the job queue plus the
  sole worker loop, for the FIFO / exactly-once / no-overlap properties.
* `VTA.GetModelRace` — an interleaving model of `get_model`'s unsynchronized
  lazy initialization.

Python strings are modelled as `List Char` (`PyStr`) where their character
structure matters, and as Lean `String` where they are opaque payloads.
Mutable module-level state is passed explicitly; exceptions are modelled
with `Option`/`Except`; wall-clock readings (`time.time()`) are omitted as
they never influence control flow.
-/

namespace VTA.Gemini

/-- Characters of a Python `str`. -/
abbrev PyStr := List Char

/-- Whitespace test used by Python's `str.strip()` (ASCII fragment). -/
def isWs (c : Char) : Bool := c.isWhitespace

/-- Python `str.strip()`: drop leading and trailing whitespace. -/
def pyStrip (s : PyStr) : PyStr :=
  ((s.dropWhile isWs).reverse.dropWhile isWs).reverse

/-- Python `str.split("\n")`: split at every newline; always non-empty. -/
def splitNl : PyStr → List PyStr
  | [] => [[]]
  | c :: cs =>
    if c = '\n' then [] :: splitNl cs
    else
      match splitNl cs with
      | [] => [[c]]
      | l :: ls => (c :: l) :: ls

/-- Python `"\n".join(lines)`. -/
def joinNl : List PyStr → PyStr
  | [] => []
  | [l] => l
  | l :: l' :: ls => l ++ '\n' :: joinNl (l' :: ls)

theorem joinNl_single (l : PyStr) : joinNl [l] = l := rfl

theorem joinNl_cons₂ (l l' : PyStr) (ls : List PyStr) :
    joinNl (l :: l' :: ls) = l ++ '\n' :: joinNl (l' :: ls) := rfl

/-- JSON values, the result type of `json.loads`. -/
inductive JsonVal where
  | str (s : PyStr)
  | num (n : Int)
  | bool (b : Bool)
  | null
  | arr (elems : List JsonVal)
  | obj (fields : List (PyStr × JsonVal))

/-- The three-backtick fence marker. -/
def fenceChars : PyStr := ['`', '`', '`']

/-- The guard `lines and lines[-1].strip() == "```"` of gemini_service.py
line 510. -/
def lastLineIsFence (lines : List PyStr) : Bool :=
  match lines.getLast? with
  | some last => pyStrip last == fenceChars
  | none => false

/-- The fence-stripping step of `_parse_response` (gemini_service.py,
lines 507-512): if the stripped text starts with a fence, drop the first
line and, when the last line strips to a bare fence, drop it too. -/
def stripFences (cleaned : PyStr) : PyStr :=
  if fenceChars.isPrefixOf cleaned then
    if lastLineIsFence ((splitNl cleaned).drop 1) then
      joinNl (((splitNl cleaned).drop 1).dropLast)
    else joinNl ((splitNl cleaned).drop 1)
  else cleaned

/-- `_parse_response`'s cleaned text: `text.strip()` then fence removal. -/
def cleanResponse (text : PyStr) : PyStr := stripFences (pyStrip text)

/-- The degraded fallback dictionary built when `json.loads` fails
(gemini_service.py, lines 518-525): the cleaned text in `summary`, all
structured fields empty. -/
def fallbackFields (cleaned : PyStr) : List (PyStr × JsonVal) :=
  [("summary".toList, .str cleaned),
   ("effective_keywords".toList, .arr []),
   ("effective_phrases".toList, .arr []),
   ("correlation_insights".toList, .arr []),
   ("recommendations".toList, .arr []),
   ("funnel_suggestions".toList, .arr [])]

/-- `_parse_response` (gemini_service.py, lines 504-525), parameterized by
the JSON decoder (`json.loads`, an external library: returns `none` exactly
where the Python function raises `JSONDecodeError`).  Total: the
`JSONDecodeError` is caught, so nothing propagates to the caller. -/
def _parse_response (decode : PyStr → Option JsonVal) (text : PyStr) : JsonVal :=
  match decode (cleanResponse text) with
  | some v => v
  | none => .obj (fallbackFields (cleanResponse text))

/-- Field lookup in a JSON object (first binding wins, as in a Python dict
literal with distinct keys). -/
def lookupField (nm : PyStr) : JsonVal → Option JsonVal
  | .obj fs => List.lookup nm fs
  | _ => none

/-! ## Credential rotation and bounded retry -/

/-- Outcome of one `client.models.generate_content` call: the response text
on success, or the raised exception's message. -/
inductive CallOutcome where
  | success (text : PyStr)
  | failure (err : String)
deriving DecidableEq

/-- Substring test (Python `in` on `str`). -/
def isSub (pat : PyStr) : PyStr → Bool
  | [] => pat.isEmpty
  | c :: cs => pat.isPrefixOf (c :: cs) || isSub pat cs

/-- The rate-limit/quota classifier of gemini_service.py line 68:
`"429" in err or "quota" in err or "rate" in err or "resource_exhausted" in err`
on the lowercased exception text. -/
def isRateLimitMsg (e : String) : Bool :=
  let l := e.toList.map Char.toLower
  isSub "429".toList l || isSub "quota".toList l ||
    isSub "rate".toList l || isSub "resource_exhausted".toList l

/-- Error message raised by `analyze_cm_effectiveness` when no API keys are
configured (gemini_service.py line 47). -/
def noKeysMsg : String :=
  "Gemini APIキーが設定されていません。設定画面からAPIキーを追加してください。"

/-- Result of one `analyze_cm_effectiveness` dispatch:
success, fail-fast configuration error (empty pool), immediate failure on a
non-rate-limit error, or pool exhaustion wrapping the last error. -/
inductive DispatchResult where
  | ok (v : JsonVal)
  | configError (msg : String)
  | fatal (err : String)
  | exhausted (lastErr : String)

/-- Constructor discriminator, to state that outcomes are distinguishable. -/
def DispatchResult.kind : DispatchResult → Nat
  | .ok _ => 0
  | .configError _ => 1
  | .fatal _ => 2
  | .exhausted _ => 3

/-- `_next_key` (gemini_service.py, lines 29-37) selects
`keys[cursor % len(keys)]`; the shared cursor increases by one per
selection, so within one dispatch the attempts use consecutive cursor
values. -/
def selKey (keys : List String) (idx : Nat) : String :=
  keys.getD (idx % keys.length) ""

/-- The retry loop of `analyze_cm_effectiveness` (gemini_service.py, lines
52-74), starting at cursor `idx` with `fuel` remaining attempts and
`last` the last stored error.  Returns the outcome together with the list
of credentials attempted, in order. -/
def attemptLoop (decode : PyStr → Option JsonVal) (call : String → CallOutcome)
    (keys : List String) : Nat → Nat → Option String → DispatchResult × List String
  | _, 0, last => (.exhausted (last.getD ""), [])
  | idx, fuel + 1, _ =>
    let key := selKey keys idx
    match call key with
    | .success t => (.ok (_parse_response decode t), [key])
    | .failure e =>
      if isRateLimitMsg e then
        let r := attemptLoop decode call keys (idx + 1) fuel (some e)
        (r.1, key :: r.2)
      else (.fatal e, [key])

/-- `analyze_cm_effectiveness` (gemini_service.py, lines 40-74),
parameterized by the JSON decoder, the external call (keyed by the
credential used) and the credential pool read from configuration storage;
`k0` is the shared rotation cursor's value when the call starts.  Returns
the outcome and the list of credentials attempted. -/
def analyze_cm_effectiveness (decode : PyStr → Option JsonVal)
    (call : String → CallOutcome) (keys : List String) (k0 : Nat) :
    DispatchResult × List String :=
  if keys.isEmpty then (.configError noKeysMsg, [])
  else attemptLoop decode call keys k0 keys.length none

/-! ### Dispatch lemmas and claims C3, C4, C5 -/

theorem selKey_mem {keys : List String} (hne : keys ≠ []) (idx : Nat) :
    selKey keys idx ∈ keys := by
  have hlt : idx % keys.length < keys.length :=
    Nat.mod_lt _ (List.length_pos.mpr hne)
  unfold selKey
  rw [List.getD_eq_getElem _ _ hlt]
  exact List.getElem_mem hlt

/-- One-step unfolding of the retry loop. -/
theorem attemptLoop_succ (decode : PyStr → Option JsonVal)
    (call : String → CallOutcome) (keys : List String) (idx fuel : Nat)
    (last : Option String) :
    attemptLoop decode call keys idx (fuel + 1) last =
      match call (selKey keys idx) with
      | .success t => (.ok (_parse_response decode t), [selKey keys idx])
      | .failure e =>
        if isRateLimitMsg e then
          ((attemptLoop decode call keys (idx + 1) fuel (some e)).1,
           selKey keys idx :: (attemptLoop decode call keys (idx + 1) fuel (some e)).2)
        else (.fatal e, [selKey keys idx]) := rfl

/-- Splitting the list of rotation positions `a, a+1, …, a+n`. -/
theorem selKey_range_shift (keys : List String) (n a : Nat) :
    (List.range (n + 1)).map (fun i => selKey keys (a + i)) =
      selKey keys a :: (List.range n).map (fun i => selKey keys (a + 1 + i)) := by
  rw [List.range_succ_eq_map, List.map_cons, List.map_map]
  refine congrArg₂ List.cons (by rw [Nat.add_zero]) ?_
  refine List.map_congr_left (fun x hx => ?_)
  simp only [Function.comp_apply, Nat.succ_eq_add_one]
  have h : a + (x + 1) = a + 1 + x := by omega
  rw [h]

/-- If every credential in the pool fails with a rate-limit-classified
error, the retry loop consumes all its fuel, attempting consecutive
rotation positions, and ends exhausted wrapping the last attempt's error. -/
theorem attemptLoop_exhausts (decode : PyStr → Option JsonVal)
    (call : String → CallOutcome) (keys : List String) (errOf : String → String)
    (hfail : ∀ k ∈ keys, call k = .failure (errOf k) ∧ isRateLimitMsg (errOf k) = true)
    (hne : keys ≠ []) :
    ∀ n idx last,
      attemptLoop decode call keys idx (n + 1) last =
        (.exhausted (errOf (selKey keys (idx + n))),
         (List.range (n + 1)).map (fun i => selKey keys (idx + i))) := by
  intro n
  induction n with
  | zero =>
    intro idx last
    obtain ⟨hc, hr⟩ := hfail _ (selKey_mem hne idx)
    rw [attemptLoop_succ, hc]
    simp [attemptLoop, hr, List.range_succ]
  | succ m ih =>
    intro idx last
    obtain ⟨hc, hr⟩ := hfail _ (selKey_mem hne idx)
    rw [attemptLoop_succ, hc]
    simp only [hr, if_true]
    rw [ih (idx + 1) (some (errOf (selKey keys idx)))]
    refine Prod.ext ?_ ?_
    · show DispatchResult.exhausted _ = DispatchResult.exhausted _
      have : idx + 1 + m = idx + (m + 1) := by omega
      rw [this]
    · show selKey keys idx :: _ = _
      rw [selKey_range_shift keys (m + 1) idx]

/-- C3: with a pool of 3 credentials where the first and second selected
credentials fail with rate-limit-classified errors and the third succeeds,
dispatch performs exactly 3 attempts — continuing with the next credential
in rotation after each rate-limited failure — and returns the third
credential's parsed result. -/
theorem c3_third_credential_succeeds (decode : PyStr → Option JsonVal)
    (call : String → CallOutcome) (keys : List String) (k0 : Nat)
    (e1 e2 : String) (t : PyStr)
    (hlen : keys.length = 3)
    (h1 : call (selKey keys k0) = .failure e1) (hr1 : isRateLimitMsg e1 = true)
    (h2 : call (selKey keys (k0 + 1)) = .failure e2) (hr2 : isRateLimitMsg e2 = true)
    (h3 : call (selKey keys (k0 + 2)) = .success t) :
    analyze_cm_effectiveness decode call keys k0 =
      (.ok (_parse_response decode t),
       [selKey keys k0, selKey keys (k0 + 1), selKey keys (k0 + 2)]) := by
  have hne : keys.isEmpty = false := by
    cases keys with
    | nil => simp at hlen
    | cons a l => rfl
  unfold analyze_cm_effectiveness
  rw [hne, hlen]
  show attemptLoop decode call keys k0 3 none = _
  have e21 : k0 + 1 + 1 = k0 + 2 := by omega
  simp only [attemptLoop, h1, hr1, if_true, h2, hr2, e21, h3]

/-- Witness for C3 at a concrete pool, call behaviour and decoder. -/
theorem c3_witness :
    analyze_cm_effectiveness (fun _ => none)
      (fun k =>
        if k = "k1" then .failure "HTTP 429 received"
        else if k = "k2" then .failure "Quota exceeded for project"
        else .success "[]".toList)
      ["k1", "k2", "k3"] 0 =
      (.ok (_parse_response (fun _ => none) "[]".toList), ["k1", "k2", "k3"]) := by
  exact c3_third_credential_succeeds (fun _ => none)
    (fun k =>
      if k = "k1" then .failure "HTTP 429 received"
      else if k = "k2" then .failure "Quota exceeded for project"
      else .success "[]".toList)
    ["k1", "k2", "k3"] 0 "HTTP 429 received" "Quota exceeded for project"
    "[]".toList (by decide) (by decide) (by decide) (by decide) (by decide)
    (by decide)

/-- C4: with a non-empty pool where every credential fails with a
rate-limit-classified error, dispatch performs exactly `N = pool size`
attempts (one per rotation position, never `N + 1`) and fails with the
exhausted error wrapping the last attempt's underlying error. -/
theorem c4_pool_exhausted (decode : PyStr → Option JsonVal)
    (call : String → CallOutcome) (keys : List String) (k0 : Nat)
    (errOf : String → String)
    (hne : keys ≠ [])
    (hfail : ∀ k ∈ keys, call k = .failure (errOf k) ∧ isRateLimitMsg (errOf k) = true) :
    analyze_cm_effectiveness decode call keys k0 =
      (.exhausted (errOf (selKey keys (k0 + (keys.length - 1)))),
       (List.range keys.length).map (fun i => selKey keys (k0 + i))) ∧
    ((List.range keys.length).map (fun i => selKey keys (k0 + i))).length
      = keys.length := by
  obtain ⟨m, hm⟩ : ∃ m, keys.length = m + 1 :=
    ⟨keys.length - 1, by have := List.length_pos.mpr hne; omega⟩
  constructor
  · have hempty : keys.isEmpty = false := by
      cases keys with
      | nil => exact absurd rfl hne
      | cons a l => rfl
    unfold analyze_cm_effectiveness
    rw [hempty]
    show attemptLoop decode call keys k0 keys.length none = _
    rw [hm, attemptLoop_exhausts decode call keys errOf hfail hne m k0 none]
    have : m + 1 - 1 = m := by omega
    rw [this]
  · simp

/-- Witness for C4: a pool of two credentials, both rate limited. -/
theorem c4_witness :
    analyze_cm_effectiveness (fun _ => none) (fun _ => .failure "rate limit hit")
      ["a", "b"] 0 =
      (.exhausted ((fun _ => "rate limit hit") (selKey ["a", "b"] (0 + (["a", "b"].length - 1)))),
       (List.range ["a", "b"].length).map (fun i => selKey ["a", "b"] (0 + i))) ∧
    ((List.range ["a", "b"].length).map (fun i => selKey ["a", "b"] (0 + i))).length
      = ["a", "b"].length := by
  exact c4_pool_exhausted (fun _ => none) (fun _ => .failure "rate limit hit")
    ["a", "b"] 0 (fun _ => "rate limit hit") (by decide) (by decide)

/-- C5: with an empty credential pool, dispatch fails immediately with the
configuration error, performs zero call attempts, and that outcome is a
different constructor from both the exhausted outcome and success. -/
theorem c5_empty_pool (decode : PyStr → Option JsonVal)
    (call : String → CallOutcome) (k0 : Nat) :
    analyze_cm_effectiveness decode call [] k0 = (.configError noKeysMsg, []) ∧
    DispatchResult.kind (.configError noKeysMsg) = 1 ∧
    (∀ e, DispatchResult.kind (.exhausted e) = 3) ∧
    (∀ v, DispatchResult.kind (.ok v) = 0) :=
  ⟨rfl, rfl, fun _ => rfl, fun _ => rfl⟩

/-! ### Response parsing: claim C7 -/

theorem splitNl_ne_nil (s : PyStr) : splitNl s ≠ [] := by
  cases s with
  | nil => simp [splitNl]
  | cons c cs =>
    rw [splitNl]
    by_cases h : c = '\n'
    · simp [h]
    · simp only [h, if_false]
      cases splitNl cs <;> simp

/-- A newline-free string splits into a single line. -/
theorem splitNl_no_nl (s : PyStr) (h : '\n' ∉ s) : splitNl s = [s] := by
  induction s with
  | nil => rfl
  | cons c cs ih =>
    rw [splitNl]
    have hc : ¬ c = '\n' := fun hc => h (hc ▸ List.mem_cons_self c cs)
    simp only [hc, if_false]
    rw [ih (fun hm => h (List.mem_cons_of_mem c hm))]

/-- Splitting a string that starts with a newline-free line. -/
theorem splitNl_cons_line (h rest : PyStr) (hh : '\n' ∉ h) :
    splitNl (h ++ '\n' :: rest) = h :: splitNl rest := by
  induction h with
  | nil => simp [splitNl]
  | cons c cs ih =>
    have hc : ¬ c = '\n' := fun hc => hh (hc ▸ List.mem_cons_self c cs)
    rw [List.cons_append, splitNl]
    simp only [hc, if_false]
    rw [ih (fun hm => hh (List.mem_cons_of_mem c hm))]

/-- Splitting a string that ends with a newline-free line. -/
theorem splitNl_snoc_line (s f : PyStr) (hf : '\n' ∉ f) :
    splitNl (s ++ '\n' :: f) = splitNl s ++ [f] := by
  induction s with
  | nil =>
    simp only [List.nil_append]
    rw [splitNl, splitNl, if_pos rfl, splitNl_no_nl f hf]
    rfl
  | cons c cs ih =>
    by_cases hc : c = '\n'
    · subst hc
      rw [List.cons_append, splitNl, if_pos rfl, ih, splitNl, if_pos rfl,
        List.cons_append]
    · rw [List.cons_append, splitNl]
      simp only [hc, if_false]
      rw [ih]
      rw [splitNl]
      simp only [hc, if_false]
      obtain ⟨l, ls, hls⟩ : ∃ l ls, splitNl cs = l :: ls := by
        cases hsp : splitNl cs with
        | nil => exact absurd hsp (splitNl_ne_nil cs)
        | cons l ls => exact ⟨l, ls, rfl⟩
      rw [hls, List.cons_append, List.cons_append]

/-- `join` is a left inverse of `split`. -/
theorem joinNl_splitNl (s : PyStr) : joinNl (splitNl s) = s := by
  induction s with
  | nil => rfl
  | cons c cs ih =>
    rw [splitNl]
    by_cases hc : c = '\n'
    · subst hc
      rw [if_pos rfl]
      obtain ⟨l, ls, hls⟩ : ∃ l ls, splitNl cs = l :: ls := by
        cases hsp : splitNl cs with
        | nil => exact absurd hsp (splitNl_ne_nil cs)
        | cons l ls => exact ⟨l, ls, rfl⟩
      rw [hls] at ih ⊢
      rw [joinNl_cons₂, List.nil_append, ih]
    · simp only [hc, if_false]
      cases hsp : splitNl cs with
      | nil => exact absurd hsp (splitNl_ne_nil cs)
      | cons l ls =>
        rw [hsp] at ih
        cases ls with
        | nil => rw [joinNl_single] at ih ⊢; rw [ih]
        | cons l' ls' =>
          rw [joinNl_cons₂] at ih ⊢
          rw [List.cons_append, ih]

theorem dropWhile_eq_self_of_head (l : PyStr)
    (h : ∀ c, l.head? = some c → isWs c = false) : l.dropWhile isWs = l := by
  cases l with
  | nil => rfl
  | cons c cs =>
    rw [List.dropWhile_cons, h c rfl]
    simp

/-- `strip` leaves a string alone when neither end is whitespace. -/
theorem pyStrip_eq_self (s : PyStr)
    (h1 : ∀ c, s.head? = some c → isWs c = false)
    (h2 : ∀ c, s.getLast? = some c → isWs c = false) : pyStrip s = s := by
  unfold pyStrip
  rw [dropWhile_eq_self_of_head s h1]
  rw [dropWhile_eq_self_of_head s.reverse
    (fun c hc => h2 c ((List.head?_reverse s) ▸ hc))]
  exact List.reverse_reverse s

theorem head?_dropWhile_not_ws (l : PyStr) (c : Char)
    (h : (l.dropWhile isWs).head? = some c) : isWs c = false := by
  induction l with
  | nil => simp [List.dropWhile] at h
  | cons x xs ih =>
    rw [List.dropWhile_cons] at h
    by_cases hx : isWs x
    · rw [if_pos hx] at h
      exact ih h
    · rw [if_neg hx] at h
      cases h
      exact Bool.eq_false_iff.mpr hx

theorem getLast?_dropWhile (l : PyStr) (hne : l.dropWhile isWs ≠ []) :
    (l.dropWhile isWs).getLast? = l.getLast? := by
  induction l with
  | nil => rfl
  | cons x xs ih =>
    rw [List.dropWhile_cons]
    rw [List.dropWhile_cons] at hne
    by_cases hx : isWs x
    · rw [if_pos hx] at hne ⊢
      rw [ih hne]
      have hxs : xs ≠ [] := by
        intro hnil
        rw [hnil] at hne
        exact hne rfl
      obtain ⟨y, ys, rfl⟩ : ∃ y ys, xs = y :: ys := by
        cases xs with
        | nil => exact absurd rfl hxs
        | cons y ys => exact ⟨y, ys, rfl⟩
      rw [List.getLast?_cons_cons]
    · rw [if_neg hx]

/-- `strip` is idempotent. -/
theorem pyStrip_idem (s : PyStr) : pyStrip (pyStrip s) = pyStrip s := by
  by_cases hE : pyStrip s = []
  · rw [hE]; rfl
  · refine pyStrip_eq_self _ ?_ ?_
    · intro c hc
      unfold pyStrip at hc hE
      rw [List.head?_reverse] at hc
      have hne : ((s.dropWhile isWs).reverse.dropWhile isWs) ≠ [] := by
        intro hnil
        rw [hnil] at hE
        exact hE rfl
      rw [getLast?_dropWhile _ hne, List.getLast?_reverse] at hc
      exact head?_dropWhile_not_ws _ _ hc
    · intro c hc
      unfold pyStrip at hc
      rw [List.getLast?_reverse] at hc
      exact head?_dropWhile_not_ws _ _ hc

/-- A Gemini response text wrapped in a fenced code block: a leading fence
line (the fence marker plus a newline-free info string such as `json`), the
payload, and a trailing bare-fence line. -/
def wrapFence (info s : PyStr) : PyStr :=
  fenceChars ++ info ++ '\n' :: s ++ '\n' :: fenceChars

theorem pyStrip_wrapFence (info s : PyStr) :
    pyStrip (wrapFence info s) = wrapFence info s := by
  refine pyStrip_eq_self _ ?_ ?_
  · intro c hc
    simp only [wrapFence, fenceChars, List.cons_append, List.head?_cons,
      Option.some_inj] at hc
    rw [← hc]
    rfl
  · intro c hc
    have hshape : wrapFence info s =
        ((fenceChars ++ info) ++ '\n' :: s) ++ '\n' :: fenceChars := by
      simp [wrapFence, List.append_assoc]
    rw [hshape, List.getLast?_append_cons] at hc
    have : (('\n' :: fenceChars) : PyStr).getLast? = some '`' := rfl
    rw [this] at hc
    cases hc
    rfl

theorem fence_isPrefixOf_wrapFence (info s : PyStr) :
    fenceChars.isPrefixOf (wrapFence info s) = true := by
  simp [wrapFence, fenceChars, List.cons_append, List.isPrefixOf]

/-- Stripping the fences of a wrapped text recovers the payload exactly. -/
theorem lastLineIsFence_concat (ls : List PyStr) (l : PyStr) :
    lastLineIsFence (ls ++ [l]) = (pyStrip l == fenceChars) := by
  unfold lastLineIsFence
  rw [List.getLast?_concat]

theorem stripFences_wrapFence (info s : PyStr) (hinfo : '\n' ∉ info) :
    stripFences (wrapFence info s) = s := by
  have hsplit : splitNl (wrapFence info s) =
      (fenceChars ++ info) :: (splitNl s ++ [fenceChars]) := by
    have hshape : wrapFence info s =
        (fenceChars ++ info) ++ '\n' :: (s ++ '\n' :: fenceChars) := by
      simp [wrapFence, List.append_assoc]
    rw [hshape, splitNl_cons_line _ _ ?hnl]
    case hnl =>
      intro hm
      rcases List.mem_append.mp hm with h | h
      · revert h; decide
      · exact hinfo h
    rw [splitNl_snoc_line s fenceChars (by decide)]
  unfold stripFences
  rw [if_pos (fence_isPrefixOf_wrapFence info s), hsplit]
  show (if lastLineIsFence (splitNl s ++ [fenceChars]) = true then
      joinNl ((splitNl s ++ [fenceChars]).dropLast)
    else joinNl (splitNl s ++ [fenceChars])) = s
  rw [lastLineIsFence_concat,
    if_pos (show (pyStrip fenceChars == fenceChars) = true by decide),
    List.dropLast_concat]
  exact joinNl_splitNl s

theorem cleanResponse_wrapFence (info s : PyStr) (hinfo : '\n' ∉ info) :
    cleanResponse (wrapFence info s) = s := by
  unfold cleanResponse
  rw [pyStrip_wrapFence, stripFences_wrapFence info s hinfo]

theorem cleanResponse_unfenced (s : PyStr)
    (hnf : fenceChars.isPrefixOf (pyStrip s) = false) :
    cleanResponse s = pyStrip s := by
  unfold cleanResponse stripFences
  rw [hnf]
  simp

/-- C7 counterexample: the claim says a failed decode returns the fallback
object with the *original* text in the summary field.  On the fenced
invalid input `"```\nnot json\n```"` the code puts the cleaned
(fence-stripped) text `"not json"` there, which differs from the original
text. -/
theorem c7_counterexample :
    _parse_response (fun _ => none)
        ("```".toList ++ '\n' :: "not json".toList ++ '\n' :: "```".toList) =
      .obj (fallbackFields "not json".toList) ∧
    lookupField "summary".toList
        (JsonVal.obj (fallbackFields "not json".toList)) =
      some (.str "not json".toList) ∧
    ("not json".toList : PyStr) ≠
      ("```".toList ++ '\n' :: "not json".toList ++ '\n' :: "```".toList) :=
  ⟨rfl, rfl, by decide⟩

/-- C7, amended: a response wrapped in a fenced code block whose payload is
valid JSON parses identically to the unwrapped payload (and yields the
decoded value); a response whose cleaned content fails to decode yields the
degraded fallback object — the *cleaned* text (whitespace-stripped,
fence-stripped) in the summary field and every structured field the empty
array — and, the embedding being a total function, nothing is raised to
the caller.  The decoder hypotheses say exactly that `decode` is a JSON
decoder: insensitive to surrounding whitespace, and succeeding only on
texts that do not start with a code fence. -/
theorem c7_fenced_roundtrip_and_fallback (decode : PyStr → Option JsonVal)
    (info s t : PyStr) (v : JsonVal)
    (hws : ∀ u, decode (pyStrip u) = decode u)
    (hinfo : '\n' ∉ info)
    (hv : decode s = some v)
    (hnf : fenceChars.isPrefixOf (pyStrip s) = false)
    (hbad : decode (cleanResponse t) = none) :
    _parse_response decode (wrapFence info s) = _parse_response decode s ∧
    _parse_response decode s = v ∧
    _parse_response decode t = .obj (fallbackFields (cleanResponse t)) ∧
    lookupField "summary".toList (_parse_response decode t) =
      some (.str (cleanResponse t)) ∧
    lookupField "effective_keywords".toList (_parse_response decode t) =
      some (.arr []) ∧
    lookupField "effective_phrases".toList (_parse_response decode t) =
      some (.arr []) ∧
    lookupField "correlation_insights".toList (_parse_response decode t) =
      some (.arr []) ∧
    lookupField "recommendations".toList (_parse_response decode t) =
      some (.arr []) ∧
    lookupField "funnel_suggestions".toList (_parse_response decode t) =
      some (.arr []) := by
  have hs : _parse_response decode s = v := by
    unfold _parse_response
    rw [cleanResponse_unfenced s hnf, hws s, hv]
  have hwrap : _parse_response decode (wrapFence info s) = v := by
    unfold _parse_response
    rw [cleanResponse_wrapFence info s hinfo, hv]
  have ht : _parse_response decode t = .obj (fallbackFields (cleanResponse t)) := by
    unfold _parse_response
    rw [hbad]
  refine ⟨hwrap.trans hs.symm, hs, ht, ?_, ?_, ?_, ?_, ?_, ?_⟩ <;> rw [ht] <;> rfl

/-- A toy whitespace-insensitive JSON decoder recognizing only the empty
array, used to instantiate the C7 witness. -/
def wsDecode : PyStr → Option JsonVal := fun u =>
  if pyStrip u = "[]".toList then some (.arr []) else none

theorem wsDecode_strip (u : PyStr) : wsDecode (pyStrip u) = wsDecode u := by
  unfold wsDecode
  rw [pyStrip_idem]

/-- Witness for the amended C7 at concrete inputs: payload `[]` wrapped in
a ```` ```json ```` fence, and the undecodable text `oops`. -/
theorem c7_witness :
    _parse_response wsDecode (wrapFence "json".toList "[]".toList) =
      _parse_response wsDecode "[]".toList ∧
    _parse_response wsDecode "[]".toList = .arr [] ∧
    _parse_response wsDecode "oops".toList =
      .obj (fallbackFields (cleanResponse "oops".toList)) ∧
    lookupField "summary".toList (_parse_response wsDecode "oops".toList) =
      some (.str (cleanResponse "oops".toList)) ∧
    lookupField "effective_keywords".toList (_parse_response wsDecode "oops".toList) =
      some (.arr []) ∧
    lookupField "effective_phrases".toList (_parse_response wsDecode "oops".toList) =
      some (.arr []) ∧
    lookupField "correlation_insights".toList (_parse_response wsDecode "oops".toList) =
      some (.arr []) ∧
    lookupField "recommendations".toList (_parse_response wsDecode "oops".toList) =
      some (.arr []) ∧
    lookupField "funnel_suggestions".toList (_parse_response wsDecode "oops".toList) =
      some (.arr []) := by
  exact c7_fenced_roundtrip_and_fallback wsDecode "json".toList "[]".toList
    "oops".toList (.arr []) wsDecode_strip (by decide) rfl (by decide) rfl

end VTA.Gemini

namespace VTA.Pipeline

/-- A row of the `videos` table, as touched by the transcription worker:
`id`, `filepath` (the stored resource locator), `status`
(`uploaded → transcribing → transcribed | error`) and `error_message`. -/
structure VideoRec where
  id : Nat
  filepath : String
  status : String
  error_message : Option String
deriving DecidableEq

/-- A transcription segment row: start/end times (opaque payload — the
float timestamps never influence control flow) and text. -/
structure SegRec where
  startT : Int
  endT : Int
  text : String
deriving DecidableEq

/-- A `transcriptions` row; its segments are kept with it (modelling the
`transcription_id` foreign key).  `processing_time_seconds` (wall clock) is
omitted: it never influences control flow. -/
structure TransRec where
  video_id : Nat
  full_text : String
  language : String
  model_used : String
deriving DecidableEq

/-- The persisted state touched by the pipeline. -/
structure Db where
  videos : List VideoRec
  transcriptions : List (TransRec × List SegRec)
deriving DecidableEq

/-- `settings.WHISPER_MODEL` (config.py default). -/
def WHISPER_MODEL : String := "large-v3"

/-- `settings.WHISPER_LANGUAGE` (config.py default). -/
def WHISPER_LANGUAGE : String := "ja"

/-- The result dictionary of `model.transcribe`: `text`, and the optional
`language` and `segments` keys read with `.get` defaults. -/
structure WhisperOut where
  text : String
  language : Option String
  segments : Option (List SegRec)

/-- The Transcription Engine collaborator: a filepath either yields a
result or raises (the `Except.error` carries `str(e)`). -/
abbrev Engine := String → Except String WhisperOut

/-- `db.query(Video).filter(Video.id == video_id).first()`. -/
def findVideo (db : Db) (vid : Nat) : Option VideoRec :=
  db.videos.find? (fun v => v.id == vid)

/-- Update the first row matched by `p` (the ORM mutates the row returned
by `.first()`). -/
def updateFirst {α : Type} (p : α → Bool) (f : α → α) : List α → List α
  | [] => []
  | x :: xs => if p x then f x :: xs else x :: updateFirst p f xs

/-- Set the status of the first row with the given id. -/
def setVideoStatus (db : Db) (vid : Nat) (st : String) : Db :=
  { db with videos :=
      updateFirst (fun v => v.id == vid) (fun v => { v with status := st }) db.videos }

/-- Python `error_msg[:500]`. -/
def pySlice500 (s : String) : String := String.mk (s.toList.take 500)

/-- The truncation of `_mark_error` (transcription_service.py line 146):
`error_msg[:500] if len(error_msg) > 500 else error_msg`. -/
def truncateMsg (s : String) : String :=
  if 500 < s.length then pySlice500 s else s

/-- `_mark_error` (transcription_service.py, lines 144-158): truncate the
message, and if the video row exists set `status = "error"` and store the
message.  (The inner DB-failure catch only logs, leaving the row as is; DB
writes themselves are modelled as succeeding.) -/
def _mark_error (vid : Nat) (emsg : String) (db : Db) : Db :=
  { db with videos :=
      (updateFirst (fun v => v.id == vid)
        (fun v => { v with status := "error", error_message := some (truncateMsg emsg) })
        db.videos) }

/-- The in-memory status registry (module globals of
transcription_service.py guarded by `_lock`); `_current_start_time` is
wall clock and omitted. -/
structure RegState where
  current_video_id : Option Nat
  queue_video_ids : List Nat
  current_step : String
deriving DecidableEq

/-- Combined persisted + in-memory state seen by the worker. -/
structure SysState where
  db : Db
  reg : RegState
deriving DecidableEq

/-- `db.add(transcription)` + `db.flush()` + the segment adds: append one
transcription row together with its segment rows. -/
def addTranscription (db : Db) (tr : TransRec) (segs : List SegRec) : Db :=
  { db with transcriptions := db.transcriptions ++ [(tr, segs)] }

/-- `_transcribe_video` (transcription_service.py, lines 93-141): look up
the row (return silently if absent), commit `transcribing`, run the
engine (a raised exception is returned as `some msg`, after the rollback
discards the uncommitted result rows), else commit the transcription with
its segments and the `transcribed` status in one transaction. -/
def _transcribe_video (engine : Engine) (vid : Nat) (fp : String)
    (s : SysState) : SysState × Option String :=
  match findVideo s.db vid with
  | none => (s, none)
  | some _ =>
    let db1 := setVideoStatus s.db vid "transcribing"
    let regML : RegState := { s.reg with current_step := "model_loading" }
    let reg1 : RegState := { regML with current_step := "transcribing" }
    match engine fp with
    | .error e => ({ db := db1, reg := reg1 }, some e)
    | .ok r =>
      let tr : TransRec :=
        { video_id := vid, full_text := r.text,
          language := r.language.getD WHISPER_LANGUAGE,
          model_used := WHISPER_MODEL }
      let db2 := addTranscription db1 tr (r.segments.getD [])
      ({ db := setVideoStatus db2 vid "transcribed", reg := reg1 }, none)

/-- One iteration of `_worker` (transcription_service.py, lines 64-80) on
a dequeued `(video_id, filepath)` pair: record the current job and drop it
from the visible pending list, run `_transcribe_video`, on exception mark
the error, and finally clear the current-job fields.  Total by
construction: the loop neither terminates nor propagates exceptions. -/
def workerBody (engine : Engine) (s : SysState) (job : Nat × String) : SysState :=
  let s1 : SysState :=
    { s with reg := { s.reg with
        current_video_id := some job.1,
        queue_video_ids := s.reg.queue_video_ids.erase job.1 } }
  let p := _transcribe_video engine job.1 job.2 s1
  let s2 : SysState :=
    match p.2 with
    | some e => { p.1 with db := _mark_error job.1 e p.1.db }
    | none => p.1
  { s2 with reg := { s2.reg with current_video_id := none, current_step := "" } }

/-- The worker draining a queue of jobs in order, one at a time. -/
def processJobs (engine : Engine) : SysState → List (Nat × String) → SysState
  | s, [] => s
  | s, j :: js => processJobs engine (workerBody engine s j) js

/-- Status of the entity with the given id. -/
def statusOf (db : Db) (vid : Nat) : Option String :=
  (findVideo db vid).map (fun v => v.status)

/-- Stored error message of the entity with the given id. -/
def errMsgOf (db : Db) (vid : Nat) : Option String :=
  (findVideo db vid).bind (fun v => v.error_message)

/-! ### Worker error isolation: claim C2 -/

theorem find?_updateFirst_self {α : Type} (p : α → Bool) (f : α → α)
    (hp : ∀ x, p (f x) = p x) (l : List α) :
    (updateFirst p f l).find? p = (l.find? p).map f := by
  induction l with
  | nil => rfl
  | cons x xs ih =>
    rw [updateFirst]
    by_cases hx : p x = true
    · rw [if_pos hx, List.find?_cons_of_pos _ ((hp x).trans hx),
        List.find?_cons_of_pos _ hx, Option.map_some']
    · rw [if_neg hx, List.find?_cons_of_neg _ hx,
        List.find?_cons_of_neg _ hx, ih]

theorem find?_updateFirst_other {α : Type} (p q : α → Bool) (f : α → α)
    (hq : ∀ x, q (f x) = q x) (hpq : ∀ x, p x = true → q x = false) (l : List α) :
    (updateFirst p f l).find? q = l.find? q := by
  induction l with
  | nil => rfl
  | cons x xs ih =>
    rw [updateFirst]
    by_cases hx : p x = true
    · have hqx : q x = false := hpq x hx
      rw [if_pos hx, List.find?_cons_of_neg _ (by rw [hq x, hqx]; exact Bool.false_ne_true),
        List.find?_cons_of_neg _ (by rw [hqx]; exact Bool.false_ne_true)]
    · rw [if_neg hx]
      by_cases hqx : q x = true
      · rw [List.find?_cons_of_pos _ hqx, List.find?_cons_of_pos _ hqx]
      · rw [List.find?_cons_of_neg _ hqx, List.find?_cons_of_neg _ hqx, ih]

theorem id_beq_of_ne {x : VideoRec} {vid w : Nat} (hvw : vid ≠ w)
    (hx : (x.id == vid) = true) : (x.id == w) = false := by
  have hid : x.id = vid := by simpa using hx
  simp [hid, hvw]

theorem findVideo_setVideoStatus_self (db : Db) (vid : Nat) (st : String) :
    findVideo (setVideoStatus db vid st) vid =
      (findVideo db vid).map (fun v => { v with status := st }) := by
  unfold findVideo setVideoStatus
  exact find?_updateFirst_self (fun v => v.id == vid)
    (fun v => { v with status := st }) (fun _ => rfl) db.videos

theorem findVideo_setVideoStatus_other (db : Db) (vid w : Nat) (st : String)
    (hvw : vid ≠ w) :
    findVideo (setVideoStatus db vid st) w = findVideo db w := by
  unfold findVideo setVideoStatus
  exact find?_updateFirst_other (fun v => v.id == vid) (fun v => v.id == w)
    (fun v => { v with status := st }) (fun _ => rfl)
    (fun x hx => id_beq_of_ne hvw hx) db.videos

theorem findVideo_mark_error_self (db : Db) (vid : Nat) (emsg : String) :
    findVideo (_mark_error vid emsg db) vid =
      (findVideo db vid).map
        (fun v => { v with status := "error", error_message := some (truncateMsg emsg) }) := by
  unfold findVideo _mark_error
  exact find?_updateFirst_self (fun v => v.id == vid)
    (fun v => { v with status := "error", error_message := some (truncateMsg emsg) })
    (fun _ => rfl) db.videos

theorem findVideo_mark_error_other (db : Db) (vid w : Nat) (emsg : String)
    (hvw : vid ≠ w) :
    findVideo (_mark_error vid emsg db) w = findVideo db w := by
  unfold findVideo _mark_error
  exact find?_updateFirst_other (fun v => v.id == vid) (fun v => v.id == w)
    (fun v => { v with status := "error", error_message := some (truncateMsg emsg) })
    (fun _ => rfl)
    (fun x hx => id_beq_of_ne hvw hx) db.videos

theorem findVideo_addTranscription (db : Db) (tr : TransRec)
    (segs : List SegRec) (vid : Nat) :
    findVideo (addTranscription db tr segs) vid = findVideo db vid := rfl

theorem trans_setVideoStatus (db : Db) (vid : Nat) (st : String) :
    (setVideoStatus db vid st).transcriptions = db.transcriptions := rfl

theorem trans_mark_error (db : Db) (vid : Nat) (emsg : String) :
    (_mark_error vid emsg db).transcriptions = db.transcriptions := rfl

theorem trans_addTranscription (db : Db) (tr : TransRec) (segs : List SegRec) :
    (addTranscription db tr segs).transcriptions =
      db.transcriptions ++ [(tr, segs)] := rfl

/-- The stored error message never exceeds 500 characters. -/
theorem truncateMsg_length (s : String) : (truncateMsg s).length ≤ 500 := by
  unfold truncateMsg pySlice500
  by_cases h : 500 < s.length
  · rw [if_pos h]
    show (s.toList.take 500).length ≤ 500
    rw [List.length_take]
    exact Nat.min_le_left 500 _
  · rw [if_neg h]
    omega

/-- C2: if the engine raises while processing job A, the worker catches
the exception — A's row ends in status `error` carrying the message
truncated to at most 500 characters — and, the loop being total (it
neither terminates nor propagates), a subsequently enqueued job B is
still processed normally: B's row ends `transcribed`, B's transcription
is persisted, and the registry's current-job fields end cleared. -/
theorem c2_engine_failure_isolated (engine : Engine) (s0 : SysState)
    (vidA vidB : Nat) (fpA fpB : String) (a b : VideoRec) (e : String)
    (r : WhisperOut)
    (hAB : vidA ≠ vidB)
    (hA : findVideo s0.db vidA = some a)
    (hB : findVideo s0.db vidB = some b)
    (heA : engine fpA = .error e)
    (heB : engine fpB = .ok r) :
    statusOf (processJobs engine s0 [(vidA, fpA), (vidB, fpB)]).db vidA =
      some "error" ∧
    errMsgOf (processJobs engine s0 [(vidA, fpA), (vidB, fpB)]).db vidA =
      some (truncateMsg e) ∧
    (truncateMsg e).length ≤ 500 ∧
    statusOf (processJobs engine s0 [(vidA, fpA), (vidB, fpB)]).db vidB =
      some "transcribed" ∧
    (∃ pr ∈ (processJobs engine s0 [(vidA, fpA), (vidB, fpB)]).db.transcriptions,
      pr.1.video_id = vidB ∧ pr.1.full_text = r.text) ∧
    (processJobs engine s0 [(vidA, fpA), (vidB, fpB)]).reg.current_video_id = none ∧
    (processJobs engine s0 [(vidA, fpA), (vidB, fpB)]).reg.current_step = "" := by
  have hstepA : workerBody engine s0 (vidA, fpA) =
      ⟨_mark_error vidA e (setVideoStatus s0.db vidA "transcribing"),
       ⟨none, s0.reg.queue_video_ids.erase vidA, ""⟩⟩ := by
    simp [workerBody, _transcribe_video, hA, heA]
  have hfB : findVideo (_mark_error vidA e (setVideoStatus s0.db vidA "transcribing")) vidB
      = some b := by
    rw [findVideo_mark_error_other _ _ _ _ hAB,
      findVideo_setVideoStatus_other _ _ _ _ hAB, hB]
  have hrun : processJobs engine s0 [(vidA, fpA), (vidB, fpB)] =
      workerBody engine (workerBody engine s0 (vidA, fpA)) (vidB, fpB) := rfl
  have hstepB : processJobs engine s0 [(vidA, fpA), (vidB, fpB)] =
      ⟨setVideoStatus
          (addTranscription
            (setVideoStatus
              (_mark_error vidA e (setVideoStatus s0.db vidA "transcribing"))
              vidB "transcribing")
            { video_id := vidB, full_text := r.text,
              language := r.language.getD WHISPER_LANGUAGE,
              model_used := WHISPER_MODEL }
            (r.segments.getD []))
          vidB "transcribed",
       ⟨none, (s0.reg.queue_video_ids.erase vidA).erase vidB, ""⟩⟩ := by
    rw [hrun, hstepA]
    simp [workerBody, _transcribe_video, hfB, heB]
  rw [hstepB]
  refine ⟨?_, ?_, truncateMsg_length e, ?_, ?_, rfl, rfl⟩
  · show statusOf _ vidA = some "error"
    unfold statusOf
    rw [findVideo_setVideoStatus_other _ _ _ _ (Ne.symm hAB),
      findVideo_addTranscription,
      findVideo_setVideoStatus_other _ _ _ _ (Ne.symm hAB),
      findVideo_mark_error_self, findVideo_setVideoStatus_self, hA]
    rfl
  · show errMsgOf _ vidA = some (truncateMsg e)
    unfold errMsgOf
    rw [findVideo_setVideoStatus_other _ _ _ _ (Ne.symm hAB),
      findVideo_addTranscription,
      findVideo_setVideoStatus_other _ _ _ _ (Ne.symm hAB),
      findVideo_mark_error_self, findVideo_setVideoStatus_self, hA]
    rfl
  · show statusOf _ vidB = some "transcribed"
    unfold statusOf
    rw [findVideo_setVideoStatus_self, findVideo_addTranscription,
      findVideo_setVideoStatus_self, hfB]
    rfl
  · show ∃ pr ∈ _, pr.1.video_id = vidB ∧ pr.1.full_text = r.text
    rw [trans_setVideoStatus, trans_addTranscription]
    exact ⟨({ video_id := vidB, full_text := r.text,
              language := r.language.getD WHISPER_LANGUAGE,
              model_used := WHISPER_MODEL },
            r.segments.getD []),
      List.mem_append_right _ (List.mem_singleton.mpr rfl), rfl, rfl⟩

/-- Witness for C2: two rows, the engine raising on job 1's file and
succeeding on job 2's. -/
theorem c2_witness :
    statusOf (processJobs
        (fun fp => if fp = "a.mp4" then .error "boom"
          else .ok ⟨"hello", some "ja", some []⟩)
        ⟨⟨[⟨1, "a.mp4", "uploaded", none⟩, ⟨2, "b.mp4", "uploaded", none⟩], []⟩,
         ⟨none, [], ""⟩⟩
        [(1, "a.mp4"), (2, "b.mp4")]).db 1 = some "error" ∧
    errMsgOf (processJobs
        (fun fp => if fp = "a.mp4" then .error "boom"
          else .ok ⟨"hello", some "ja", some []⟩)
        ⟨⟨[⟨1, "a.mp4", "uploaded", none⟩, ⟨2, "b.mp4", "uploaded", none⟩], []⟩,
         ⟨none, [], ""⟩⟩
        [(1, "a.mp4"), (2, "b.mp4")]).db 1 = some (truncateMsg "boom") ∧
    (truncateMsg "boom").length ≤ 500 ∧
    statusOf (processJobs
        (fun fp => if fp = "a.mp4" then .error "boom"
          else .ok ⟨"hello", some "ja", some []⟩)
        ⟨⟨[⟨1, "a.mp4", "uploaded", none⟩, ⟨2, "b.mp4", "uploaded", none⟩], []⟩,
         ⟨none, [], ""⟩⟩
        [(1, "a.mp4"), (2, "b.mp4")]).db 2 = some "transcribed" ∧
    (∃ pr ∈ (processJobs
        (fun fp => if fp = "a.mp4" then .error "boom"
          else .ok ⟨"hello", some "ja", some []⟩)
        ⟨⟨[⟨1, "a.mp4", "uploaded", none⟩, ⟨2, "b.mp4", "uploaded", none⟩], []⟩,
         ⟨none, [], ""⟩⟩
        [(1, "a.mp4"), (2, "b.mp4")]).db.transcriptions,
      pr.1.video_id = 2 ∧ pr.1.full_text = "hello") ∧
    (processJobs
        (fun fp => if fp = "a.mp4" then .error "boom"
          else .ok ⟨"hello", some "ja", some []⟩)
        ⟨⟨[⟨1, "a.mp4", "uploaded", none⟩, ⟨2, "b.mp4", "uploaded", none⟩], []⟩,
         ⟨none, [], ""⟩⟩
        [(1, "a.mp4"), (2, "b.mp4")]).reg.current_video_id = none ∧
    (processJobs
        (fun fp => if fp = "a.mp4" then .error "boom"
          else .ok ⟨"hello", some "ja", some []⟩)
        ⟨⟨[⟨1, "a.mp4", "uploaded", none⟩, ⟨2, "b.mp4", "uploaded", none⟩], []⟩,
         ⟨none, [], ""⟩⟩
        [(1, "a.mp4"), (2, "b.mp4")]).reg.current_step = "" := by
  exact c2_engine_failure_isolated
    (fun fp => if fp = "a.mp4" then .error "boom"
      else .ok ⟨"hello", some "ja", some []⟩)
    ⟨⟨[⟨1, "a.mp4", "uploaded", none⟩, ⟨2, "b.mp4", "uploaded", none⟩], []⟩,
     ⟨none, [], ""⟩⟩
    1 2 "a.mp4" "b.mp4" ⟨1, "a.mp4", "uploaded", none⟩
    ⟨2, "b.mp4", "uploaded", none⟩ "boom" ⟨"hello", some "ja", some []⟩
    (by decide) rfl rfl (by simp) (by simp)

/-! ### Status registry: claim C8 -/

/-- Python `list.index` returning the first index, with `ValueError`
modelled as `none`. -/
def pyIndex (l : List Nat) (x : Nat) : Option Nat :=
  match l with
  | [] => none
  | y :: ys => if y = x then some 0 else (pyIndex ys x).map (· + 1)

/-- `get_video_queue_position` (transcription_service.py, lines 50-58):
`0` for the current video, `index + 1` for a queued one, `None` otherwise. -/
def get_video_queue_position (st : RegState) (video_id : Nat) : Option Nat :=
  if st.current_video_id = some video_id then some 0
  else (pyIndex st.queue_video_ids video_id).map (· + 1)

theorem pyIndex_spec (l : List Nat) (x : Nat) :
    pyIndex l x = if x ∈ l then some (l.indexOf x) else none := by
  induction l with
  | nil => rfl
  | cons y ys ih =>
    rw [pyIndex]
    by_cases hxy : y = x
    · subst hxy
      rw [if_pos rfl, if_pos (List.mem_cons_self y ys), List.indexOf_cons_self]
    · rw [if_neg hxy, ih]
      by_cases hm : x ∈ ys
      · rw [if_pos hm, if_pos (List.mem_cons_of_mem y hm),
          List.indexOf_cons_ne ys hxy]
        rfl
      · rw [if_neg hm, if_neg (fun hmem => by
          rcases List.mem_cons.mp hmem with h | h
          · exact hxy h.symm
          · exact hm h)]
        rfl

/-- C8: `get_video_queue_position` returns `0` for the in-progress job,
the 1-based index into the pending list for a queued job (so `1` for the
job right after the in-progress one), and `none` for a job that is
neither current nor queued. -/
theorem c8_queue_position (st : RegState) (vid : Nat) :
    get_video_queue_position st vid =
      (if st.current_video_id = some vid then some 0
       else if vid ∈ st.queue_video_ids then
         some (st.queue_video_ids.indexOf vid + 1)
       else none) := by
  unfold get_video_queue_position
  by_cases hc : st.current_video_id = some vid
  · rw [if_pos hc, if_pos hc]
  · rw [if_neg hc, if_neg hc, pyIndex_spec]
    by_cases hm : vid ∈ st.queue_video_ids
    · rw [if_pos hm, if_pos hm]
      rfl
    · rw [if_neg hm, if_neg hm]
      rfl

/-- Witness for C8: with video 5 in progress and pending list `[7, 9]`,
the next pending job 7 has position 1. -/
theorem c8_witness :
    get_video_queue_position ⟨some 5, [7, 9], ""⟩ 7 = some 1 :=
  (c8_queue_position ⟨some 5, [7, 9], ""⟩ 7).trans (by decide)

/-! ### The worker on an unknown job id: claim C10 -/

/-- C10: a job whose id matches no persisted row is completed silently:
`_transcribe_video` returns at the `if not video` guard, so the database —
statuses, error messages and transcriptions — is left exactly as it was,
no error is marked, the registry's current-job fields end cleared, and the
(total) worker proceeds to the next job. -/
theorem c10_unknown_job (engine : Engine) (s : SysState) (job : Nat × String)
    (h : findVideo s.db job.1 = none) :
    workerBody engine s job =
      { db := s.db,
        reg := { current_video_id := none,
                 queue_video_ids := s.reg.queue_video_ids.erase job.1,
                 current_step := "" } } := by
  simp [workerBody, _transcribe_video, h]

/-- Witness for C10: enqueueing id 3 against a database with no rows. -/
theorem c10_witness :
    workerBody (fun _ => .error "boom") ⟨⟨[], []⟩, ⟨none, [3], ""⟩⟩ (3, "f.mp4") =
      { db := ⟨[], []⟩,
        reg := { current_video_id := none,
                 queue_video_ids := List.erase [3] 3,
                 current_step := "" } } :=
  c10_unknown_job (fun _ => .error "boom") ⟨⟨[], []⟩, ⟨none, [3], ""⟩⟩ (3, "f.mp4")
    rfl

/-! ### Recovery Scanner: claim C6 -/

/-- The filter `Video.status.in_(["uploaded", "transcribing"])` of
main.py line 93. -/
def isStuck (v : VideoRec) : Bool :=
  v.status == "uploaded" || v.status == "transcribing"

/-- The scan loop of `_requeue_incomplete_transcriptions` (main.py, lines
93-102) over the queried rows: per row, reset the status to `uploaded`,
commit, then enqueue `(id, filepath)`.  A per-row failure — modelled by
the oracle `fail`, e.g. the commit raising — is rolled back (row
unchanged), logged and skipped without aborting the scan. -/
def requeueGo (fail : VideoRec → Bool) :
    List VideoRec → List VideoRec × List (Nat × String)
  | [] => ([], [])
  | v :: vs =>
    let rest := requeueGo fail vs
    if isStuck v then
      if fail v then (v :: rest.1, rest.2)
      else ({ v with status := "uploaded" } :: rest.1, (v.id, v.filepath) :: rest.2)
    else (v :: rest.1, rest.2)

/-- `_requeue_incomplete_transcriptions` (main.py, lines 85-106): returns
the updated database and the list of `enqueue_transcription` calls made,
in order. -/
def _requeue_incomplete_transcriptions (fail : VideoRec → Bool) (db : Db) :
    Db × List (Nat × String) :=
  ({ db with videos := (requeueGo fail db.videos).1 }, (requeueGo fail db.videos).2)

theorem requeueGo_spec (fail : VideoRec → Bool) (l : List VideoRec) :
    requeueGo fail l =
      (l.map (fun v => if isStuck v && !fail v then { v with status := "uploaded" } else v),
       (l.filter (fun v => isStuck v && !fail v)).map (fun v => (v.id, v.filepath))) := by
  induction l with
  | nil => rfl
  | cons v vs ih =>
    rw [requeueGo, ih]
    by_cases hs : isStuck v = true
    · by_cases hf : fail v = true
      · simp [hs, hf, List.filter_cons]
      · simp [hs, Bool.eq_false_iff.mpr hf, List.filter_cons]
    · simp [Bool.eq_false_iff.mpr hs, List.filter_cons]

/-- C6: the Recovery Scanner enqueues, exactly once each and in scan
order, every persisted entity whose status is `uploaded` or `transcribing`
and whose processing does not fail, using its stored resource locator, and
persists its reset to `uploaded`; a failing entity is left unchanged and
skipped, and — each row's treatment depending only on that row — a failure
on one entity never prevents the remaining entities from being reset and
enqueued. -/
theorem c6_recovery_scan (fail : VideoRec → Bool) (db : Db) :
    (_requeue_incomplete_transcriptions fail db).2 =
      (db.videos.filter (fun v => isStuck v && !fail v)).map
        (fun v => (v.id, v.filepath)) ∧
    (_requeue_incomplete_transcriptions fail db).1.videos =
      db.videos.map
        (fun v => if isStuck v && !fail v then { v with status := "uploaded" } else v) ∧
    (_requeue_incomplete_transcriptions fail db).1.transcriptions =
      db.transcriptions := by
  unfold _requeue_incomplete_transcriptions
  rw [requeueGo_spec]
  exact ⟨rfl, rfl, rfl⟩

/-- Witness for C6: one entity left `transcribing` and one left
`uploaded` by a prior run are both reset to `uploaded` and both enqueued
exactly once, in order, with their stored locators. -/
theorem c6_witness :
    (_requeue_incomplete_transcriptions (fun _ => false)
        ⟨[⟨1, "a.mp4", "transcribing", none⟩, ⟨2, "b.mp4", "uploaded", none⟩], []⟩).2 =
      [(1, "a.mp4"), (2, "b.mp4")] ∧
    (_requeue_incomplete_transcriptions (fun _ => false)
        ⟨[⟨1, "a.mp4", "transcribing", none⟩, ⟨2, "b.mp4", "uploaded", none⟩], []⟩).1.videos =
      [⟨1, "a.mp4", "uploaded", none⟩, ⟨2, "b.mp4", "uploaded", none⟩] := by
  have h := c6_recovery_scan (fun _ => false)
    ⟨[⟨1, "a.mp4", "transcribing", none⟩, ⟨2, "b.mp4", "uploaded", none⟩], []⟩
  exact ⟨h.1.trans (by decide), h.2.1.trans (by decide)⟩

end VTA.Pipeline

namespace VTA.QueueModel

/-!
An operational model of the job queue and the sole worker loop
(transcription_service.py, lines 61-90).  `enqueue_transcription` appends
`(video_id, filepath)` to the tail of the FIFO `_task_queue`; the single
worker thread repeatedly dequeues the head (`dequeue`), processes it, and
completes it (`finish`) before its next iteration.  A system run is any
interleaving of `enqueue` events with the worker's own strictly
alternating `dequeue`/`finish` events; `dequeue` is enabled only when the
worker is idle — there is one worker thread, and its loop body finishes a
job before `_task_queue.get()` is reached again — and only when the queue
is non-empty (`get` blocks on an empty queue).
-/

/-- A job: `(video_id, filepath)` as passed to `enqueue_transcription`. -/
structure Job where
  jobId : Nat
  resource : String
deriving DecidableEq

/-- Events of a system run. -/
inductive Op where
  | enqueue (j : Job)
  | dequeue
  | finish
deriving DecidableEq

/-- Queue/worker state: the pending FIFO, the job the worker currently
processes (at most one, the worker being a single thread), and the jobs
processed so far in completion order. -/
structure WState where
  pending : List Job
  current : Option Job
  processed : List Job
deriving DecidableEq

/-- One event.  `none` when the event cannot occur at this state. -/
def stepOp (s : WState) : Op → Option WState
  | .enqueue j => some { s with pending := s.pending ++ [j] }
  | .dequeue =>
    match s.current, s.pending with
    | none, j :: rest =>
      some { pending := rest, current := some j, processed := s.processed }
    | _, _ => none
  | .finish =>
    match s.current with
    | some j => some { s with current := none, processed := s.processed ++ [j] }
    | none => none

/-- Run a sequence of events. -/
def runOps : WState → List Op → Option WState
  | s, [] => some s
  | s, op :: ops =>
    match stepOp s op with
    | some s' => runOps s' ops
    | none => none

/-- The jobs submitted by a run, in submission order. -/
def enqueuedOf : List Op → List Job
  | [] => []
  | .enqueue j :: ops => j :: enqueuedOf ops
  | _ :: ops => enqueuedOf ops

/-- The job in progress, as a list. -/
def currentList (s : WState) : List Job := s.current.toList

/-- The initial state: empty queue, idle worker, nothing processed. -/
def init : WState := ⟨[], none, []⟩

theorem runOps_cons (s : WState) (op : Op) (ops : List Op) :
    runOps s (op :: ops) = (stepOp s op).bind (fun s1 => runOps s1 ops) := by
  show (match stepOp s op with
        | some s1 => runOps s1 ops
        | none => none) = _
  cases stepOp s op <;> rfl

theorem runOps_append (s : WState) (l1 l2 : List Op) :
    runOps s (l1 ++ l2) = (runOps s l1).bind (fun s1 => runOps s1 l2) := by
  induction l1 generalizing s with
  | nil => rfl
  | cons op l1 ih =>
    rw [List.cons_append, runOps_cons, runOps_cons]
    cases stepOp s op with
    | none => rfl
    | some s1 => exact ih s1

theorem enqueuedOf_nil : enqueuedOf [] = [] := rfl

theorem enqueuedOf_enqueue (j : Job) (ops : List Op) :
    enqueuedOf (Op.enqueue j :: ops) = j :: enqueuedOf ops := rfl

theorem enqueuedOf_dequeue (ops : List Op) :
    enqueuedOf (Op.dequeue :: ops) = enqueuedOf ops := rfl

theorem enqueuedOf_finish (ops : List Op) :
    enqueuedOf (Op.finish :: ops) = enqueuedOf ops := rfl

/-- The conservation invariant: submissions = completions + in flight +
pending, in order. -/
theorem runOps_conservation (ops : List Op) :
    ∀ s s' : WState, runOps s ops = some s' →
      s'.processed ++ currentList s' ++ s'.pending =
        s.processed ++ currentList s ++ s.pending ++ enqueuedOf ops := by
  induction ops with
  | nil =>
    intro s s' h
    cases h
    rw [enqueuedOf_nil, List.append_nil]
  | cons op ops ih =>
    intro s s' h
    rw [runOps_cons] at h
    obtain ⟨s1, hst, hrest⟩ := Option.bind_eq_some.mp h
    have hmid := ih s1 s' hrest
    obtain ⟨pend, cur, proc⟩ := s
    cases op with
    | enqueue j =>
      unfold stepOp at hst
      cases hst
      rw [hmid]
      simp [currentList, enqueuedOf_enqueue, List.append_assoc]
    | dequeue =>
      cases cur with
      | some j => unfold stepOp at hst; cases hst
      | none =>
        cases pend with
        | nil => unfold stepOp at hst; cases hst
        | cons j rest =>
          unfold stepOp at hst
          cases hst
          rw [hmid]
          simp [currentList, enqueuedOf_dequeue, List.append_assoc]
    | finish =>
      cases cur with
      | none => unfold stepOp at hst; cases hst
      | some j =>
        unfold stepOp at hst
        cases hst
        rw [hmid]
        simp [currentList, enqueuedOf_finish, List.append_assoc]

/-- A `dequeue` event requires an idle worker. -/
theorem dequeue_needs_idle (s s' : WState) (ops : List Op)
    (h : runOps s (Op.dequeue :: ops) = some s') : s.current = none := by
  rw [runOps_cons] at h
  obtain ⟨s1, hst, _⟩ := Option.bind_eq_some.mp h
  obtain ⟨pend, cur, proc⟩ := s
  cases cur with
  | none => rfl
  | some j =>
    unfold stepOp at hst
    cases hst

/-- If the worker is busy at the start of a run that ends idle, the run
contains a `finish` event. -/
theorem busy_to_idle_has_finish (ops : List Op) :
    ∀ (s s' : WState) (j : Job), s.current = some j → runOps s ops = some s' →
      s'.current = none → Op.finish ∈ ops := by
  induction ops with
  | nil =>
    intro s s' j hc h hidle
    cases h
    rw [hc] at hidle
    cases hidle
  | cons op ops ih =>
    intro s s' j hc h hidle
    rw [runOps_cons] at h
    obtain ⟨s1, hst, hrest⟩ := Option.bind_eq_some.mp h
    cases op with
    | enqueue j' =>
      obtain ⟨pend, cur, proc⟩ := s
      unfold stepOp at hst
      cases hst
      exact List.mem_cons_of_mem _
        (ih ⟨pend ++ [j'], cur, proc⟩ s' j hc hrest hidle)
    | dequeue =>
      obtain ⟨pend, cur, proc⟩ := s
      have hc' : cur = some j := hc
      subst hc'
      unfold stepOp at hst
      cases hst
    | finish => exact List.mem_cons_self _ _

/-- C1: in every run of the system from the initial state — any
interleaving of `enqueue` calls with the sole worker's alternating
dequeue/finish events — (i) the completed jobs followed by the in-flight
and pending ones are *exactly* the submitted jobs in submission order:
completion order is submission order (FIFO, no priority, no reordering),
nothing is processed twice and nothing is invented; (ii) once the worker
is idle and the queue empty, the completed jobs are exactly the submitted
jobs, each processed exactly once; (iii) transcriptions never overlap in
time: between any two `dequeue` events a `finish` lies, so a second job is
never begun before the in-flight one completes. -/
theorem c1_fifo_exactly_once_no_overlap (ops : List Op) (s' : WState)
    (h : runOps init ops = some s') :
    (s'.processed ++ (currentList s' ++ s'.pending) = enqueuedOf ops) ∧
    (s'.current = none → s'.pending = [] → s'.processed = enqueuedOf ops) ∧
    (∀ l1 l2 l3, ops = l1 ++ Op.dequeue :: l2 ++ Op.dequeue :: l3 →
      Op.finish ∈ l2) := by
  have hcons := runOps_conservation ops init s' h
  have hinit : init.processed ++ currentList init ++ init.pending ++ enqueuedOf ops
      = enqueuedOf ops := rfl
  rw [hinit] at hcons
  refine ⟨?_, ?_, ?_⟩
  · rw [← List.append_assoc]
    exact hcons
  · intro hcur hpend
    have hcl : currentList s' = [] := by
      unfold currentList
      rw [hcur]
      rfl
    rw [hcl, hpend, List.append_nil, List.append_nil] at hcons
    exact hcons
  · intro l1 l2 l3 hops
    rw [hops, runOps_append] at h
    obtain ⟨s1, h1, h⟩ := Option.bind_eq_some.mp h
    have hidleEnd : s1.current = none := dequeue_needs_idle s1 s' l3 h
    rw [runOps_append] at h1
    obtain ⟨sA, hA, h1⟩ := Option.bind_eq_some.mp h1
    rw [runOps_cons] at h1
    obtain ⟨s2, hst, h2⟩ := Option.bind_eq_some.mp h1
    obtain ⟨j, hj⟩ : ∃ j, s2.current = some j := by
      obtain ⟨pend, cur, proc⟩ := sA
      cases cur with
      | some j' =>
        unfold stepOp at hst
        cases hst
      | none =>
        cases pend with
        | nil =>
          unfold stepOp at hst
          cases hst
        | cons j rest =>
          unfold stepOp at hst
          cases hst
          exact ⟨j, rfl⟩
    exact busy_to_idle_has_finish l2 s2 s1 j hj h2 hidleEnd

/-- Witness for C1: two jobs enqueued then drained by the worker. -/
theorem c1_witness :
    runOps init [Op.enqueue ⟨1, "a"⟩, Op.enqueue ⟨2, "b"⟩, Op.dequeue,
        Op.finish, Op.dequeue, Op.finish] =
      some ⟨[], none, [⟨1, "a"⟩, ⟨2, "b"⟩]⟩ ∧
    ((⟨[], none, [⟨1, "a"⟩, ⟨2, "b"⟩]⟩ : WState).processed ++
        (currentList ⟨[], none, [⟨1, "a"⟩, ⟨2, "b"⟩]⟩ ++
          (⟨[], none, [⟨1, "a"⟩, ⟨2, "b"⟩]⟩ : WState).pending) =
      enqueuedOf [Op.enqueue ⟨1, "a"⟩, Op.enqueue ⟨2, "b"⟩, Op.dequeue,
        Op.finish, Op.dequeue, Op.finish]) ∧
    ((⟨[], none, [⟨1, "a"⟩, ⟨2, "b"⟩]⟩ : WState).current = none →
      (⟨[], none, [⟨1, "a"⟩, ⟨2, "b"⟩]⟩ : WState).pending = [] →
      (⟨[], none, [⟨1, "a"⟩, ⟨2, "b"⟩]⟩ : WState).processed =
        enqueuedOf [Op.enqueue ⟨1, "a"⟩, Op.enqueue ⟨2, "b"⟩, Op.dequeue,
          Op.finish, Op.dequeue, Op.finish]) ∧
    (∀ l1 l2 l3,
      [Op.enqueue ⟨1, "a"⟩, Op.enqueue ⟨2, "b"⟩, Op.dequeue, Op.finish,
        Op.dequeue, Op.finish] = l1 ++ Op.dequeue :: l2 ++ Op.dequeue :: l3 →
      Op.finish ∈ l2) := by
  refine ⟨by decide, ?_⟩
  exact c1_fifo_exactly_once_no_overlap
    [Op.enqueue ⟨1, "a"⟩, Op.enqueue ⟨2, "b"⟩, Op.dequeue, Op.finish,
      Op.dequeue, Op.finish]
    ⟨[], none, [⟨1, "a"⟩, ⟨2, "b"⟩]⟩ (by decide)

end VTA.QueueModel

namespace VTA.GetModelRace

/-!
An interleaving model of `get_model` (transcription_service.py, lines
25-33).  The function is called concurrently: main.py's lifespan spawns a
warm-up thread (`_preload`, lines 64-80) that calls `get_model()` while
the worker thread calls it for the first job.  `get_model` reads and
writes the module globals `_model` / `_model_loading` WITHOUT taking
`_lock` (the module's lock guards the other globals only).  Each thread
runs, step by step:

  1. `atCheck` — evaluate `_model is None`; branch;
  2. `atLoad`  — `_model_loading = True; _model = whisper.load_model(...);
                  _model_loading = False` (one construction of the engine);
  3. `atRet`   — `return _model`.

`model` holds the identity of the stored instance (its construction
sequence number); `loadCount` counts engine constructions.
-/

/-- Program counter of one thread executing `get_model`. -/
inductive Pc where
  | atCheck
  | atLoad
  | atRet
  | finished (result : Option Nat)
deriving DecidableEq

/-- The module globals plus the two racing threads. -/
structure GState where
  model : Option Nat
  model_loading : Bool
  loadCount : Nat
  t0 : Pc
  t1 : Pc
deriving DecidableEq

def pcOf (s : GState) (t : Bool) : Pc := if t then s.t1 else s.t0

def setPc (s : GState) (t : Bool) (pc : Pc) : GState :=
  if t then { s with t1 := pc } else { s with t0 := pc }

/-- One small step of thread `t`. -/
def stepThread (s : GState) (t : Bool) : GState :=
  match pcOf s t with
  | .atCheck => setPc s t (if s.model = none then .atLoad else .atRet)
  | .atLoad =>
    { setPc s t .atRet with
        model := some s.loadCount,
        model_loading := false,
        loadCount := s.loadCount + 1 }
  | .atRet => setPc s t (.finished s.model)
  | .finished _ => s

/-- Run a schedule (a list of thread choices). -/
def runSched (s : GState) (sched : List Bool) : GState :=
  sched.foldl stepThread s

/-- Both threads about to make their first call, nothing loaded. -/
def initG : GState := ⟨none, false, 0, .atCheck, .atCheck⟩

/-- C9 refutation: `get_model` takes no lock, so when the warm-up call and
the first job's call interleave check-check-load-load, the engine is
constructed twice (`loadCount = 2`) — the claim's "only one construction
occurs" fails — even though both callers then return the same (second)
instance. -/
theorem c9_double_construction :
    (runSched initG [false, true, false, true, false, true]).loadCount = 2 ∧
    (runSched initG [false, true, false, true, false, true]).t0 =
      .finished (some 1) ∧
    (runSched initG [false, true, false, true, false, true]).t1 =
      .finished (some 1) ∧
    1 < (runSched initG [false, true, false, true, false, true]).loadCount := by
  refine ⟨rfl, rfl, rfl, ?_⟩
  show 1 < 2
  decide

end VTA.GetModelRace
